import Mathlib

/-!
Verification development for the kubectl-tree relationship-resolution and
tree-assembly engine.

The definitions below are a shallow embedding of the Go sources:
  pkg/k8s/resources.go   (GetPodsByOwner, GetReplicaSetsByOwner,
                          GetJobsByOwner, FindRelatedResources)
  pkg/tree/printer.go    (Printer.PrintTree, Builder.BuildTree,
                          Builder.addRelatedResources)
  the tree Resource model (Resource, SortChildren)
  main.go                (BuildAndRender flow: build, then print the root
                          with empty prefix as last)

Modelling conventions:
  * Go `map[K]V` values are embedded as insertion-ordered association lists
    (`List (String × α)`); `m[k] = v` is `goMapInsert`, which overwrites an
    existing key in place and otherwise appends.  Go leaves the iteration
    order of a map unspecified (and randomizes it at runtime), so the
    `range` over a map used to turn the dedup maps back into slices is
    embedded as an explicit enumeration parameter `MapExtract`; any
    enumeration that is a permutation of the stored values (`ValidExtract`)
    is a possible run of the program.  `extractInsertion` is the canonical
    insertion-order enumeration.
  * Go strings are Lean `String`s; Go `<` on strings is the lexicographic
    byte order, embedded as `strLt` over the scalar values of the
    characters so that it is kernel-computable.
  * Nil pointers and nil maps are `Option`.
-/

/-- Go lexicographic strict order on lists of naturals: shorter prefix first,
otherwise first differing element decides. -/
def natsLt : List Nat → List Nat → Bool
  | _, [] => false
  | [], _ :: _ => true
  | a :: as, b :: bs => a < b || (a == b && natsLt as bs)

/-- Key of a string for lexicographic comparison: the scalar values of its
characters. -/
def strKey (s : String) : List Nat := s.toList.map Char.toNat

/-- Go `<` on strings (lexicographic). -/
def strLt (a b : String) : Bool := natsLt (strKey a) (strKey b)

/-- Whether `p` occurs at the start of `l` (helper for Go strings.Contains). -/
def charsLeading : List Char → List Char → Bool
  | [], _ => true
  | _ :: _, [] => false
  | a :: as, b :: bs => a == b && charsLeading as bs

/-- Whether second list occurs inside the first (helper for strings.Contains). -/
def charsContains : List Char → List Char → Bool
  | [], sub => sub.isEmpty
  | c :: cs, sub => charsLeading sub (c :: cs) || charsContains cs sub

/-- Go `strings.Contains s sub`. -/
def strContains (s sub : String) : Bool := charsContains s.toList sub.toList

/-- Go `m[k] = v` on an insertion-ordered association list: overwrite the
existing entry for `k` in place, otherwise append the new entry. -/
def goMapInsert (m : List (String × α)) (k : String) (v : α) : List (String × α) :=
  if m.any (fun p => p.1 == k) then
    m.map (fun p => if p.1 == k then (k, v) else p)
  else
    m ++ [(k, v)]

/-- An owner reference: kind and name of the controlling parent. -/
structure OwnerReference where
  kind : String
  name : String
deriving DecidableEq, Repr

/-- One `envFrom` entry of a container: an optional ConfigMap name and an
optional Secret name (corev1.EnvFromSource, flattened to names). -/
structure EnvFromSource where
  configMapRef : Option String
  secretRef : Option String
deriving DecidableEq, Repr

/-- One `env` entry of a container.  `secretKeyRef` is the Secret name of
`env.ValueFrom.SecretKeyRef`, `none` when `ValueFrom` or `SecretKeyRef` is
nil. -/
structure EnvVar where
  secretKeyRef : Option String
deriving DecidableEq, Repr

/-- A container of a pod template: name, envFrom entries and env entries. -/
structure Container where
  name : String
  envFrom : List EnvFromSource
  env : List EnvVar
deriving DecidableEq, Repr

/-- A volume of a pod template: optional ConfigMap name, Secret name and
PersistentVolumeClaim claim name references (corev1.Volume, flattened). -/
structure Volume where
  configMap : Option String
  secret : Option String
  persistentVolumeClaim : Option String
deriving DecidableEq, Repr

/-- A pod spec: volumes and containers. -/
structure PodSpec where
  volumes : List Volume
  containers : List Container
deriving DecidableEq, Repr

/-- A Service: name and an optional selector (nil map vs. entries). -/
structure Service where
  name : String
  selector : Option (List (String × String))
deriving DecidableEq, Repr

/-- A ConfigMap (only the name is consulted). -/
structure ConfigMap where
  name : String
deriving DecidableEq, Repr

/-- A Secret (only the name is consulted). -/
structure Secret where
  name : String
deriving DecidableEq, Repr

/-- A PersistentVolumeClaim (only the name is consulted). -/
structure PVC where
  name : String
deriving DecidableEq, Repr

/-- A Pod: name, owner references and spec. -/
structure Pod where
  name : String
  ownerReferences : List OwnerReference
  spec : PodSpec
deriving DecidableEq, Repr

/-- A ReplicaSet: name and owner references. -/
structure ReplicaSet where
  name : String
  ownerReferences : List OwnerReference
deriving DecidableEq, Repr

/-- A Deployment: name, labels and pod template spec. -/
structure Deployment where
  name : String
  labels : List (String × String)
  template : PodSpec
deriving DecidableEq, Repr

/-- A StatefulSet: name, labels, pod template spec and the names of its
volume claim templates. -/
structure StatefulSet where
  name : String
  labels : List (String × String)
  template : PodSpec
  volumeClaimTemplates : List String
deriving DecidableEq, Repr

/-- A DaemonSet: name, labels and pod template spec. -/
structure DaemonSet where
  name : String
  labels : List (String × String)
  template : PodSpec
deriving DecidableEq, Repr

/-- A Job: name, labels, owner references and pod template spec. -/
structure Job where
  name : String
  labels : List (String × String)
  ownerReferences : List OwnerReference
  template : PodSpec
deriving DecidableEq, Repr

/-- A CronJob: name, labels and the pod template spec nested in its job
template (Spec.JobTemplate.Spec.Template.Spec). -/
structure CronJob where
  name : String
  labels : List (String × String)
  jobTemplate : PodSpec
deriving DecidableEq, Repr

/-- The read-only snapshot of resource collections for one namespace
(k8s.Resources). -/
structure Resources where
  services : List Service
  configMaps : List ConfigMap
  secrets : List Secret
  pvcs : List PVC
  pods : List Pod
  deployments : List Deployment
  statefulSets : List StatefulSet
  daemonSets : List DaemonSet
  replicaSets : List ReplicaSet
  jobs : List Job
  cronJobs : List CronJob
deriving DecidableEq, Repr

/-- The dynamic type of the workload passed to FindRelatedResources
(the `metav1.Object` argument is always one of these five kinds). -/
inductive Workload where
  | deployment (d : Deployment)
  | statefulSet (s : StatefulSet)
  | daemonSet (d : DaemonSet)
  | job (j : Job)
  | cronJob (c : CronJob)
deriving DecidableEq, Repr

/-- workload.GetName(). -/
def Workload.getName : Workload → String
  | .deployment d => d.name
  | .statefulSet s => s.name
  | .daemonSet d => d.name
  | .job j => j.name
  | .cronJob c => c.name

/-- workload.GetLabels(). -/
def Workload.getLabels : Workload → List (String × String)
  | .deployment d => d.labels
  | .statefulSet s => s.labels
  | .daemonSet d => d.labels
  | .job j => j.labels
  | .cronJob c => c.labels

/-- The `workloadKind` computed by the type switch in FindRelatedResources
(resources.go lines 67-90). -/
def Workload.goKind : Workload → String
  | .deployment _ => "Deployment"
  | .statefulSet _ => "StatefulSet"
  | .daemonSet _ => "DaemonSet"
  | .job _ => "Job"
  | .cronJob _ => "CronJob"

/-- The pod spec extracted by the type switch in addRelatedResources
(printer.go lines 376-390); the CronJob case goes through the job
template. -/
def Workload.podSpec : Workload → PodSpec
  | .deployment d => d.template
  | .statefulSet s => s.template
  | .daemonSet d => d.template
  | .job j => j.template
  | .cronJob c => c.jobTemplate

/-- GetPodsByOwner (resources.go lines 14-25): every pod whose owner
reference list has an entry whose kind and name equal the arguments. -/
def GetPodsByOwner (r : Resources) (ownerKind ownerName : String) : List Pod :=
  r.pods.filter (fun pod =>
    pod.ownerReferences.any (fun owner =>
      owner.kind == ownerKind && owner.name == ownerName))

/-- GetReplicaSetsByOwner (resources.go lines 28-39). -/
def GetReplicaSetsByOwner (r : Resources) (ownerKind ownerName : String) : List ReplicaSet :=
  r.replicaSets.filter (fun rs =>
    rs.ownerReferences.any (fun owner =>
      owner.kind == ownerKind && owner.name == ownerName))

/-- GetJobsByOwner (resources.go lines 42-53). -/
def GetJobsByOwner (r : Resources) (ownerKind ownerName : String) : List Job :=
  r.jobs.filter (fun job =>
    job.ownerReferences.any (fun owner =>
      owner.kind == ownerKind && owner.name == ownerName))

/-- Go `workloadLabels[key]`: map indexing with the zero value `""` for an
absent key. -/
def goMapLookup (labels : List (String × String)) (key : String) : String :=
  match labels.find? (fun p => p.1 == key) with
  | some p => p.2
  | none => ""

/-- The per-service match decision of the services loop in
FindRelatedResources (resources.go lines 93-120): services with a nil
selector are skipped; a non-empty selector matches when every pair agrees
with the workload labels under Go map indexing; a StatefulSet can instead
match by service name equal to the workload name or the workload name with
suffix "-headless". -/
def serviceMatches (workloadLabels : List (String × String))
    (workloadKind workloadName : String) (svc : Service) : Bool :=
  match svc.selector with
  | none => false
  | some sel =>
    let matched :=
      if sel.length > 0 then
        sel.all (fun kv => goMapLookup workloadLabels kv.1 == kv.2)
      else false
    if !matched && workloadKind == "StatefulSet" then
      svc.name == workloadName || svc.name == workloadName ++ "-headless"
    else matched

/-- The serviceMap built by the services loop (resources.go lines 93-121). -/
def relatedServiceMap (r : Resources) (workloadLabels : List (String × String))
    (workloadKind workloadName : String) : List (String × Service) :=
  r.services.foldl
    (fun m svc =>
      if serviceMatches workloadLabels workloadKind workloadName svc then
        goMapInsert m svc.name svc
      else m)
    []

/-- The pvcMap seeding for StatefulSet volume claim templates
(resources.go lines 71-79): for each template, the PVC named
`template + "-" + workloadName + "-0"` is recorded. -/
def vctSeedMap (r : Resources) (sts : StatefulSet) : List (String × PVC) :=
  sts.volumeClaimTemplates.foldl
    (fun m template =>
      let pvcName := template ++ "-" ++ sts.name ++ "-0"
      r.pvcs.foldl
        (fun m' pvc => if pvc.name == pvcName then goMapInsert m' pvc.name pvc else m')
        m)
    []

/-- The ConfigMap part of the volumes loop (resources.go lines 127-135):
first collection entry with the referenced name wins.  The single Go loop
updates the ConfigMap, Secret and PVC maps independently, so each map is
embedded as its own fold over the volumes. -/
def volumeConfigMaps (r : Resources) (vols : List Volume) : List (String × ConfigMap) :=
  vols.foldl
    (fun m vol =>
      match vol.configMap with
      | none => m
      | some cmName =>
        match r.configMaps.find? (fun cm => cm.name == cmName) with
        | some cm => goMapInsert m cm.name cm
        | none => m)
    []

/-- The Secret part of the volumes loop (resources.go lines 137-144). -/
def volumeSecrets (r : Resources) (vols : List Volume) : List (String × Secret) :=
  vols.foldl
    (fun m vol =>
      match vol.secret with
      | none => m
      | some secretName =>
        match r.secrets.find? (fun s => s.name == secretName) with
        | some s => goMapInsert m s.name s
        | none => m)
    []

/-- The PVC part of the volumes loop (resources.go lines 146-170), starting
from the volume-claim-template seed: a direct claim-name match wins;
otherwise, for StatefulSets only, every PVC whose name contains the
workload name is recorded. -/
def volumePVCs (r : Resources) (workloadKind workloadName : String)
    (vols : List Volume) (seed : List (String × PVC)) : List (String × PVC) :=
  vols.foldl
    (fun m vol =>
      match vol.persistentVolumeClaim with
      | none => m
      | some claimName =>
        match r.pvcs.find? (fun pvc => pvc.name == claimName) with
        | some pvc => goMapInsert m pvc.name pvc
        | none =>
          if workloadKind == "StatefulSet" then
            r.pvcs.foldl
              (fun m' pvc =>
                if strContains pvc.name workloadName then goMapInsert m' pvc.name pvc else m')
              m
          else m)
    seed

/-- The environment loop (resources.go lines 174-198): each `envFrom` entry
with a SecretRef and each `env` entry sourced from a Secret key records the
first collection Secret with that name.  The entries' ConfigMap references
are not consulted by this loop. -/
def envSecretMaps (r : Resources) (containers : List Container)
    (seed : List (String × Secret)) : List (String × Secret) :=
  containers.foldl
    (fun m container =>
      let m1 := container.envFrom.foldl
        (fun m' ef =>
          match ef.secretRef with
          | none => m'
          | some secretName =>
            match r.secrets.find? (fun s => s.name == secretName) with
            | some s => goMapInsert m' s.name s
            | none => m')
        m
      container.env.foldl
        (fun m' ev =>
          match ev.secretKeyRef with
          | none => m'
          | some secretName =>
            match r.secrets.find? (fun s => s.name == secretName) with
            | some s => goMapInsert m' s.name s
            | none => m')
        m1)
    seed

/-- The four deduplication maps built by FindRelatedResources
(resources.go lines 56-199) in insertion order.  The `found` parameter of
the Go function is accepted but never read or written by its body, which
this embedding preserves. -/
def FindRelatedResourcesMaps (r : Resources) (workload : Workload)
    (podSpec : Option PodSpec) (found : List String) :
    List (String × Service) × List (String × ConfigMap) ×
      List (String × Secret) × List (String × PVC) :=
  let _ := found
  let workloadLabels := workload.getLabels
  let workloadName := workload.getName
  let workloadKind := workload.goKind
  let pvcMap0 : List (String × PVC) :=
    match workload with
    | .statefulSet sts => vctSeedMap r sts
    | _ => []
  let serviceMap := relatedServiceMap r workloadLabels workloadKind workloadName
  match podSpec with
  | none => (serviceMap, [], [], pvcMap0)
  | some ps =>
    (serviceMap,
     volumeConfigMaps r ps.volumes,
     envSecretMaps r ps.containers (volumeSecrets r ps.volumes),
     volumePVCs r workloadKind workloadName ps.volumes pvcMap0)

/-- An enumeration strategy for Go maps: how `for _, v := range m` orders the
values.  Go leaves this order unspecified and randomizes it at runtime. -/
def MapExtract : Type 1 := ∀ α : Type, List (String × α) → List α

/-- An enumeration is a possible run of Go's map range when it yields exactly
the stored values, in some order. -/
def ValidExtract (e : MapExtract) : Prop :=
  ∀ (α : Type) (l : List (String × α)), List.Perm (e α l) (l.map Prod.snd)

/-- The canonical enumeration: insertion order. -/
def extractInsertion : MapExtract := fun _ l => l.map Prod.snd

/-- Another possible enumeration: reverse insertion order. -/
def extractReverse : MapExtract := fun _ l => (l.map Prod.snd).reverse

/-- FindRelatedResources (resources.go lines 56-223): build the four
deduplication maps, then convert them back to slices by ranging over each
map with the given enumeration (lines 201-222). -/
def FindRelatedResources (e : MapExtract) (r : Resources) (workload : Workload)
    (podSpec : Option PodSpec) (found : List String) :
    List Service × List ConfigMap × List Secret × List PVC :=
  match FindRelatedResourcesMaps r workload podSpec found with
  | (sm, cm, sec, pv) => (e _ sm, e _ cm, e _ sec, e _ pv)

/-- A tree node (the tree Resource type): kind, name and ordered children. -/
inductive Resource where
  | mk (kind : String) (name : String) (children : List Resource)

/-- Kind of a tree node. -/
def Resource.kind : Resource → String
  | .mk k _ _ => k

/-- Name of a tree node. -/
def Resource.name : Resource → String
  | .mk _ n _ => n

/-- Children of a tree node. -/
def Resource.children : Resource → List Resource
  | .mk _ _ cs => cs

/-- The Container child nodes attached under a pod node, one per container of
the pod spec in declaration order (printer.go lines 165-172 and the three
identical blocks at the other pod sites). -/
def containerNodes (p : Pod) : List Resource :=
  p.spec.containers.map (fun c => Resource.mk "Container" c.name [])

/-- A Pod node as BuildTree constructs it: name of the pod, with its
Container children. -/
def podNode (p : Pod) : Resource :=
  Resource.mk "Pod" p.name (containerNodes p)

/-- addRelatedResources (printer.go lines 374-452): extract the pod spec for
the workload kind, resolve related resources, and append Service,
ConfigMap, Secret and PVC child nodes in that order. -/
def relatedChildNodes (e : MapExtract) (r : Resources) (w : Workload)
    (found : List String) : List Resource :=
  match FindRelatedResources e r w (some w.podSpec) found with
  | (services, configMaps, secrets, pvcs) =>
    services.map (fun s => Resource.mk "Service" s.name []) ++
    configMaps.map (fun c => Resource.mk "ConfigMap" c.name []) ++
    secrets.map (fun s => Resource.mk "Secret" s.name []) ++
    pvcs.map (fun p => Resource.mk "PersistentVolumeClaim" p.name [])

/-- The subtree BuildTree assembles for one Deployment (printer.go lines
133-178): related resources first, then the owned ReplicaSets, each with
its owned Pods. -/
def deploymentNode (e : MapExtract) (r : Resources) (found : List String)
    (d : Deployment) : Resource :=
  Resource.mk "Deployment" d.name
    (relatedChildNodes e r (.deployment d) found ++
     (GetReplicaSetsByOwner r "Deployment" d.name).map (fun rs =>
       Resource.mk "ReplicaSet" rs.name
         ((GetPodsByOwner r "ReplicaSet" rs.name).map podNode)))

/-- The subtree for one StatefulSet (printer.go lines 181-212): related
resources first, then directly owned Pods. -/
def statefulSetNode (e : MapExtract) (r : Resources) (found : List String)
    (s : StatefulSet) : Resource :=
  Resource.mk "StatefulSet" s.name
    (relatedChildNodes e r (.statefulSet s) found ++
     (GetPodsByOwner r "StatefulSet" s.name).map podNode)

/-- The subtree for one DaemonSet (printer.go lines 215-246). -/
def daemonSetNode (e : MapExtract) (r : Resources) (found : List String)
    (d : DaemonSet) : Resource :=
  Resource.mk "DaemonSet" d.name
    (relatedChildNodes e r (.daemonSet d) found ++
     (GetPodsByOwner r "DaemonSet" d.name).map podNode)

/-- Whether a Job is standalone (printer.go line 251): no owner references,
or the first owner reference is not a CronJob. -/
def jobIsStandalone (j : Job) : Bool :=
  match j.ownerReferences with
  | [] => true
  | o :: _ => o.kind != "CronJob"

/-- The subtree for one standalone Job (printer.go lines 249-282). -/
def jobNode (e : MapExtract) (r : Resources) (found : List String)
    (j : Job) : Resource :=
  Resource.mk "Job" j.name
    (relatedChildNodes e r (.job j) found ++
     (GetPodsByOwner r "Job" j.name).map podNode)

/-- The subtree for one CronJob (printer.go lines 285-323): owned Jobs with
their Pods; no related-resource attachment for CronJob-owned Jobs. -/
def cronJobNode (r : Resources) (c : CronJob) : Resource :=
  Resource.mk "CronJob" c.name
    ((GetJobsByOwner r "CronJob" c.name).map (fun j =>
      Resource.mk "Job" j.name ((GetPodsByOwner r "Job" j.name).map podNode)))

/-- Builder.BuildTree (printer.go lines 103-329) on an already-fetched
snapshot: when the five workload collections are all empty, return the
distinguished "no resources" signal (`none`, from the Go `return nil, nil`
after the informational message); otherwise assemble the Namespace-rooted
tree in the fixed processing order, with a shared `found` map created once
(line 130) and passed to every related-resource attachment. -/
def BuildTree (e : MapExtract) (ns : String) (r : Resources) : Option Resource :=
  if r.deployments.isEmpty && r.statefulSets.isEmpty && r.daemonSets.isEmpty &&
      r.jobs.isEmpty && r.cronJobs.isEmpty then
    none
  else
    let found : List String := []
    some (Resource.mk "Namespace" ns
      (r.deployments.map (deploymentNode e r found) ++
       r.statefulSets.map (statefulSetNode e r found) ++
       r.daemonSets.map (daemonSetNode e r found) ++
       (r.jobs.filter jobIsStandalone).map (jobNode e r found) ++
       r.cronJobs.map (cronJobNode r)))

/-- getResourceColor (printer.go lines 27-46). -/
def getResourceColor (useColor : Bool) (kind : String) : String :=
  if !useColor then ""
  else if kind == "Deployment" || kind == "StatefulSet" || kind == "DaemonSet" then "\x1b[34m"
  else if kind == "Pod" then "\x1b[32m"
  else if kind == "Service" then "\x1b[33m"
  else if kind == "ConfigMap" || kind == "Secret" then "\x1b[35m"
  else if kind == "PersistentVolumeClaim" then "\x1b[36m"
  else ""

/-- getConnector (printer.go lines 48-53). -/
def getConnector (isLast : Bool) : String :=
  if isLast then "└── " else "├── "

/-- The ANSI reset sequence appended to every printed line
(printer.go line 67, the colorReset constant). -/
def colorReset : String := "\x1b[0m"

mutual

/-- Printer.PrintTree (printer.go lines 55-81), collecting the printed lines:
one line for this node, then the children with the extended prefix, the
last child flagged as last. -/
def printTree (useColor : Bool) : Resource → String → Bool → List String
  | .mk kind name children, pre, isLast =>
    let line := pre ++ getConnector isLast ++ getResourceColor useColor kind ++
      kind ++ "/" ++ name ++ colorReset
    let childPre := pre ++ (if isLast then "    " else "│   ")
    line :: printForest useColor children childPre

/-- The children loop of PrintTree (printer.go lines 77-80): each child is
last exactly when it is the final element. -/
def printForest (useColor : Bool) : List Resource → String → List String
  | [], _ => []
  | [c], childPre => printTree useColor c childPre true
  | c :: c' :: rest, childPre =>
    printTree useColor c childPre false ++ printForest useColor (c' :: rest) childPre

end

/-- The build-and-render flow of main.go (lines 59-70): build the tree, and
print the root with an empty prefix as the last node.  `none` is the
"no resources" signal. -/
def BuildAndRender (useColor : Bool) (e : MapExtract) (ns : String)
    (r : Resources) : Option (List String) :=
  match BuildTree e ns r with
  | none => none
  | some root => some (printTree useColor root "" true)

/-- The comparison closure of SortChildren (resource model, sort.Slice less
function): first by kind, then by name, with Go string `<`. -/
def goLess (a b : Resource) : Bool :=
  strLt a.kind b.kind || (a.kind == b.kind && strLt a.name b.name)

/-- The non-strict order that Go sort.Slice establishes for its less
function: `a` may precede `b` exactly when `b` is not strictly less than
`a`. -/
def sortLe (a b : Resource) : Bool := !(goLess b a)

mutual

/-- Resource.SortChildren (resource model lines 100-115): sort the children
with sort.Slice by kind then name, then recurse into each (sorted)
child. -/
def SortChildren : Resource → Resource
  | .mk kind name children =>
    .mk kind name (sortChildrenForest (children.mergeSort sortLe))
termination_by r => sizeOf r
decreasing_by
  rename_i cs
  simp_wf
  have h := List.Perm.sizeOf_eq_sizeOf (List.mergeSort_perm cs sortLe)
  omega

/-- Recursing into each child of an already sorted children slice. -/
def sortChildrenForest : List Resource → List Resource
  | [] => []
  | c :: cs => SortChildren c :: sortChildrenForest cs
termination_by l => sizeOf l
decreasing_by
  all_goals simp_wf
  all_goals omega

end

/-- The child order stated for sorted trees: ascending lexicographically,
primary key kind, secondary key name. -/
def nodeLe (a b : Resource) : Bool :=
  strLt a.kind b.kind || (a.kind == b.kind && (strLt a.name b.name || a.name == b.name))

/-- Whether adjacent elements of a children slice are in `nodeLe` order. -/
def chainLe : List Resource → Bool
  | [] => true
  | [_] => true
  | a :: b :: rest => nodeLe a b && chainLe (b :: rest)

mutual

/-- Whether every node's children, at every depth, are sorted ascending by
kind then name. -/
def treeSortedB : Resource → Bool
  | .mk _ _ cs => chainLe cs && forestSortedB cs
termination_by r => sizeOf r
decreasing_by simp_wf

/-- Sortedness of every tree of a forest. -/
def forestSortedB : List Resource → Bool
  | [] => true
  | c :: cs => treeSortedB c && forestSortedB cs
termination_by l => sizeOf l
decreasing_by
  all_goals simp_wf
  all_goals omega

end

mutual

/-- All nodes of a tree: the node itself and, recursively, the nodes of its
children. -/
def subnodes : Resource → List Resource
  | .mk k n cs => .mk k n cs :: subnodesForest cs
termination_by r => sizeOf r
decreasing_by simp_wf

/-- All nodes of a forest. -/
def subnodesForest : List Resource → List Resource
  | [] => []
  | c :: cs => subnodes c ++ subnodesForest cs
termination_by l => sizeOf l
decreasing_by
  all_goals simp_wf
  all_goals omega

end

mutual

/-- Rendering as the rendering contract words it, amended with the trailing
reset sequence: one line per node in depth-first pre-order, the line being
the prefix, then the connector chosen by whether the node is the last
sibling, then kind, a slash, name, and the reset sequence; a last ancestor
contributes four spaces and a non-last ancestor a vertical bar and three
spaces to the descendants' prefix. -/
def renderSpecLines : Resource → String → Bool → List String
  | .mk kind name children, pre, isLast =>
    (pre ++ (if isLast then "└── " else "├── ") ++ kind ++ "/" ++ name ++ "\x1b[0m") ::
      renderSpecForest children (pre ++ (if isLast then "    " else "│   "))
termination_by r => sizeOf r
decreasing_by simp_wf

/-- Children of a node rendered in order; only the final child is last. -/
def renderSpecForest : List Resource → String → List String
  | [], _ => []
  | [c], pre => renderSpecLines c pre true
  | c :: c' :: rest, pre =>
    renderSpecLines c pre false ++ renderSpecForest (c' :: rest) pre
termination_by l => sizeOf l
decreasing_by
  all_goals simp_wf
  all_goals omega

end

/-- The service relation exactly as the claim words it: the selector is
non-empty and every selector key/value pair is present with equal value in
the workload's labels, or the workload is a StatefulSet and the service
name equals the workload name or the workload name followed by
"-headless". -/
def relatedServiceClaim (w : Workload) (s : Service) : Prop :=
  (∃ sel, s.selector = some sel ∧ sel ≠ [] ∧ ∀ kv ∈ sel, kv ∈ w.getLabels) ∨
  (w.goKind = "StatefulSet" ∧ (s.name = w.getName ∨ s.name = w.getName ++ "-headless"))

/-- The amended service relation: the selector must be non-nil even for the
StatefulSet name rule, and a selector pair is compared against the
workload labels under Go map indexing, where an absent key reads as the
empty string. -/
def relatedServiceAmended (w : Workload) (s : Service) : Prop :=
  ∃ sel, s.selector = some sel ∧
    ((sel ≠ [] ∧ ∀ kv ∈ sel, goMapLookup w.getLabels kv.1 = kv.2) ∨
     (w.goKind = "StatefulSet" ∧ (s.name = w.getName ∨ s.name = w.getName ++ "-headless")))

theorem natsLt_irrefl (l : List Nat) : natsLt l l = false := by
  induction l with
  | nil => rfl
  | cons a as ih => simp [natsLt, ih]

theorem natsLt_asymm {a b : List Nat} (h1 : natsLt a b = true)
    (h2 : natsLt b a = true) : False := by
  induction a generalizing b with
  | nil =>
    cases b with
    | nil => simp [natsLt] at h1
    | cons y ys => simp [natsLt] at h2
  | cons x xs ih =>
    cases b with
    | nil => simp [natsLt] at h1
    | cons y ys =>
      simp [natsLt] at h1 h2
      rcases h1 with h1 | ⟨hxy, h1⟩
      · rcases h2 with h2 | ⟨hyx, h2⟩
        · omega
        · omega
      · rcases h2 with h2 | ⟨hyx, h2⟩
        · omega
        · exact ih h1 h2

theorem natsLt_trans {a b c : List Nat} (h1 : natsLt a b = true)
    (h2 : natsLt b c = true) : natsLt a c = true := by
  induction a generalizing b c with
  | nil =>
    cases b with
    | nil => simp [natsLt] at h1
    | cons y ys =>
      cases c with
      | nil => simp [natsLt] at h2
      | cons z zs => simp [natsLt]
  | cons x xs ih =>
    cases b with
    | nil => simp [natsLt] at h1
    | cons y ys =>
      cases c with
      | nil => simp [natsLt] at h2
      | cons z zs =>
        simp [natsLt] at h1 h2 ⊢
        rcases h1 with h1 | ⟨hxy, h1⟩
        · rcases h2 with h2 | ⟨hyz, h2⟩
          · omega
          · omega
        · rcases h2 with h2 | ⟨hyz, h2⟩
          · omega
          · subst hxy; subst hyz
            exact Or.inr ⟨rfl, ih h1 h2⟩

theorem natsLt_connex {a b : List Nat} (h1 : natsLt a b = false)
    (h2 : natsLt b a = false) : a = b := by
  induction a generalizing b with
  | nil =>
    cases b with
    | nil => rfl
    | cons y ys => simp [natsLt] at h1
  | cons x xs ih =>
    cases b with
    | nil => simp [natsLt] at h2
    | cons y ys =>
      simp [natsLt] at h1 h2
      obtain ⟨hle1, h1'⟩ := h1
      obtain ⟨hle2, h2'⟩ := h2
      have hxy : x = y := by omega
      subst hxy
      have := ih (h1' rfl) (h2' rfl)
      rw [this]

theorem strKey_inj {a b : String} (h : strKey a = strKey b) : a = b := by
  have hchar : Function.Injective Char.toNat := by
    intro c d hcd
    exact Char.ext (UInt32.ext hcd)
  have hlist : a.toList = b.toList := List.map_injective_iff.mpr hchar h
  cases a with
  | mk da =>
    cases b with
    | mk db =>
      have hdata : da = db := by simpa [String.toList] using hlist
      rw [hdata]

theorem strLt_irrefl (s : String) : strLt s s = false := natsLt_irrefl _

theorem strLt_asymm {a b : String} (h1 : strLt a b = true)
    (h2 : strLt b a = true) : False := natsLt_asymm h1 h2

theorem strLt_trans {a b c : String} (h1 : strLt a b = true)
    (h2 : strLt b c = true) : strLt a c = true := natsLt_trans h1 h2

theorem strLt_connex {a b : String} (h1 : strLt a b = false)
    (h2 : strLt b a = false) : a = b := strKey_inj (natsLt_connex h1 h2)

theorem goLess_asymm {a b : Resource} (h1 : goLess a b = true)
    (h2 : goLess b a = true) : False := by
  simp [goLess] at h1 h2
  rcases h1 with h1 | ⟨hk1, h1⟩
  · rcases h2 with h2 | ⟨hk2, h2⟩
    · exact strLt_asymm h1 h2
    · rw [hk2] at h1; simp [strLt_irrefl] at h1
  · rcases h2 with h2 | ⟨hk2, h2⟩
    · rw [hk1] at h2; simp [strLt_irrefl] at h2
    · exact strLt_asymm h1 h2

theorem goLess_trans {a b c : Resource} (h1 : goLess a b = true)
    (h2 : goLess b c = true) : goLess a c = true := by
  simp [goLess] at h1 h2 ⊢
  rcases h1 with h1 | ⟨hk1, h1⟩
  · rcases h2 with h2 | ⟨hk2, h2⟩
    · exact Or.inl (strLt_trans h1 h2)
    · rw [hk2] at h1; exact Or.inl h1
  · rcases h2 with h2 | ⟨hk2, h2⟩
    · rw [hk1]; exact Or.inl h2
    · rw [hk1, hk2]; exact Or.inr ⟨rfl, strLt_trans h1 h2⟩

theorem goLess_eq_keys {a b : Resource} (h1 : goLess a b = false)
    (h2 : goLess b a = false) : a.kind = b.kind ∧ a.name = b.name := by
  simp [goLess] at h1 h2
  obtain ⟨hk1, hn1⟩ := h1
  obtain ⟨hk2, hn2⟩ := h2
  have hk : a.kind = b.kind := strLt_connex hk1 hk2
  refine ⟨hk, strLt_connex (hn1 hk) (hn2 hk.symm)⟩

theorem sortLe_trans (a b c : Resource) (h1 : sortLe a b = true)
    (h2 : sortLe b c = true) : sortLe a c = true := by
  simp only [sortLe, Bool.not_eq_true'] at h1 h2 ⊢
  cases hca : goLess c a with
  | false => rfl
  | true =>
    exfalso
    cases hbc : goLess b c with
    | true =>
      have hba := goLess_trans hbc hca
      exact absurd hba (by simp [h1])
    | false =>
      obtain ⟨hk, hn⟩ := goLess_eq_keys hbc h2
      have hba : goLess b a = true := by
        simp only [goLess] at hca ⊢
        rw [hk, hn]
        exact hca
      exact absurd hba (by simp [h1])

theorem sortLe_total (a b : Resource) : (sortLe a b || sortLe b a) = true := by
  simp only [sortLe, Bool.or_eq_true, Bool.not_eq_true']
  cases h1 : goLess a b with
  | false => exact Or.inr rfl
  | true =>
    cases h2 : goLess b a with
    | false => exact Or.inl rfl
    | true => exact absurd (goLess_asymm h1 h2) (by simp)

theorem sortLe_imp_nodeLe {a b : Resource} (h : sortLe a b = true) :
    nodeLe a b = true := by
  simp [sortLe] at h
  cases hab : goLess a b with
  | true =>
    simp [goLess] at hab
    rcases hab with hab | ⟨hk, hn⟩
    · simp [nodeLe, hab]
    · simp [nodeLe, hk, hn]
  | false =>
    obtain ⟨hk, hn⟩ := goLess_eq_keys hab h
    simp [nodeLe, hk, hn]

theorem Resource.strongInd (P : Resource → Prop)
    (h : ∀ k n cs, (∀ c ∈ cs, P c) → P (Resource.mk k n cs)) : ∀ r, P r := by
  have aux : ∀ m, ∀ r : Resource, sizeOf r ≤ m → P r := by
    intro m
    induction m with
    | zero =>
      intro r hr
      cases r with
      | mk k n cs => simp at hr
    | succ m ih =>
      intro r hr
      cases r with
      | mk k n cs =>
        apply h
        intro c hc
        apply ih
        have hlt := List.sizeOf_lt_of_mem hc
        simp at hr
        omega
  intro r
  exact aux (sizeOf r) r le_rfl

theorem mem_subnodesForest {m : Resource} {cs : List Resource} :
    m ∈ subnodesForest cs ↔ ∃ c ∈ cs, m ∈ subnodes c := by
  induction cs with
  | nil => simp [subnodesForest]
  | cons c cs ih =>
    simp [subnodesForest, ih]

theorem mem_subnodes {m : Resource} {k n : String} {cs : List Resource} :
    m ∈ subnodes (.mk k n cs) ↔ m = .mk k n cs ∨ ∃ c ∈ cs, m ∈ subnodes c := by
  rw [subnodes]
  simp [mem_subnodesForest]

theorem keys_goMapInsert (m : List (String × α)) (k : String) (v : α) :
    (goMapInsert m k v).map Prod.fst =
      if m.any (fun p => p.1 == k) = true then m.map Prod.fst
      else m.map Prod.fst ++ [k] := by
  simp only [goMapInsert]
  by_cases hk : m.any (fun p => p.1 == k) = true
  · rw [if_pos hk, if_pos hk, List.map_map]
    apply List.map_congr_left
    intro p _
    by_cases hpk : p.1 = k
    · simp [Function.comp, hpk]
    · simp [Function.comp, hpk]
  · rw [if_neg hk, if_neg hk, List.map_append]
    rfl

theorem mem_keys_goMapInsert {m : List (String × α)} {k k' : String} {v : α} :
    k' ∈ (goMapInsert m k v).map Prod.fst ↔ k' = k ∨ k' ∈ m.map Prod.fst := by
  rw [keys_goMapInsert]
  by_cases hk : m.any (fun p => p.1 == k) = true
  · rw [if_pos hk]
    simp only [List.any_eq_true, beq_iff_eq] at hk
    obtain ⟨p, hp, hpk⟩ := hk
    constructor
    · exact Or.inr
    · rintro (rfl | hmem)
      · exact hpk ▸ List.mem_map.mpr ⟨p, hp, rfl⟩
      · exact hmem
  · rw [if_neg hk]
    simp [or_comm]

theorem keyedBy_goMapInsert {m : List (String × α)} {f : α → String} {v : α}
    (hm : ∀ p ∈ m, p.1 = f p.2) :
    ∀ p ∈ goMapInsert m (f v) v, p.1 = f p.2 := by
  intro p hp
  simp only [goMapInsert] at hp
  by_cases hk : m.any (fun q => q.1 == f v) = true
  · simp only [hk, if_pos, List.mem_map] at hp
    obtain ⟨q, hq, hqp⟩ := hp
    by_cases hqk : q.1 = f v
    · simp [hqk] at hqp
      rw [← hqp]
    · simp [hqk] at hqp
      rw [← hqp]
      exact hm q hq
  · simp only [hk, if_neg, Bool.not_eq_true, List.mem_append, List.mem_singleton] at hp
    rcases hp with hp | rfl
    · exact hm p hp
    · rfl

theorem values_keyedBy_of_mem_keys {m : List (String × α)} {f : α → String} {k : String}
    (hkb : ∀ p ∈ m, p.1 = f p.2) (hk : k ∈ m.map Prod.fst) :
    ∃ v ∈ m.map Prod.snd, f v = k := by
  simp only [List.mem_map] at hk
  obtain ⟨p, hp, hpk⟩ := hk
  exact ⟨p.2, List.mem_map.mpr ⟨p, hp, rfl⟩, (hkb p hp ▸ hpk : f p.2 = k)⟩

theorem extract_mem {e : MapExtract} (he : ValidExtract e) {α : Type}
    {l : List (String × α)} {x : α} : x ∈ e α l ↔ x ∈ l.map Prod.snd :=
  (he α l).mem_iff

theorem extract_nil {e : MapExtract} (he : ValidExtract e) (α : Type) :
    e α [] = [] := (he α []).eq_nil

theorem extract_singleton {e : MapExtract} (he : ValidExtract e) {α : Type}
    (k : String) (v : α) : e α [(k, v)] = [v] :=
  List.perm_singleton.mp (he α [(k, v)])

theorem foldl_keys_mono {α : Type} {β : Type} {step : List (String × α) → β → List (String × α)}
    (hmono : ∀ m x k, k ∈ m.map Prod.fst → k ∈ (step m x).map Prod.fst)
    (l : List β) (m : List (String × α)) (k : String) (hk : k ∈ m.map Prod.fst) :
    k ∈ (l.foldl step m).map Prod.fst := by
  induction l generalizing m with
  | nil => exact hk
  | cons x xs ih => exact ih (step m x) (hmono m x k hk)

theorem foldl_keys_reach {α : Type} {β : Type} {step : List (String × α) → β → List (String × α)}
    (hmono : ∀ m x k, k ∈ m.map Prod.fst → k ∈ (step m x).map Prod.fst)
    {l : List β} {x : β} (hx : x ∈ l) {k : String}
    (hhit : ∀ m, k ∈ (step m x).map Prod.fst) (m : List (String × α)) :
    k ∈ (l.foldl step m).map Prod.fst := by
  induction l generalizing m with
  | nil => cases hx
  | cons y ys ih =>
    rcases List.mem_cons.mp hx with rfl | hx'
    · exact foldl_keys_mono hmono ys (step m x) k (hhit m)
    · exact ih hx' (step m y)

theorem foldl_keyedBy {α : Type} {β : Type} {step : List (String × α) → β → List (String × α)}
    {f : α → String}
    (hstep : ∀ m x, (∀ p ∈ m, p.1 = f p.2) → ∀ p ∈ step m x, p.1 = f p.2)
    (l : List β) (m : List (String × α)) (hm : ∀ p ∈ m, p.1 = f p.2) :
    ∀ p ∈ l.foldl step m, p.1 = f p.2 := by
  induction l generalizing m with
  | nil => exact hm
  | cons x xs ih => exact ih (step m x) (hstep m x hm)

theorem values_goMapInsert {α : Type} {P : α → Prop} {m : List (String × α)}
    {k : String} {v : α} (hv : P v) (hm : ∀ w ∈ m.map Prod.snd, P w) :
    ∀ w ∈ (goMapInsert m k v).map Prod.snd, P w := by
  intro w hw
  simp only [goMapInsert] at hw
  by_cases hk : m.any (fun p => p.1 == k) = true
  · rw [if_pos hk, List.map_map, List.mem_map] at hw
    obtain ⟨p, hp, hpw⟩ := hw
    by_cases hpk : p.1 = k
    · simp [Function.comp, hpk] at hpw
      exact hpw ▸ hv
    · simp [Function.comp, hpk] at hpw
      exact hpw ▸ hm p.2 (List.mem_map.mpr ⟨p, hp, rfl⟩)
  · rw [if_neg hk, List.map_append, List.mem_append] at hw
    rcases hw with hw | hw
    · exact hm w hw
    · simp at hw
      exact hw ▸ hv

theorem foldl_values_sat {α : Type} {β : Type} {P : α → Prop}
    {step : List (String × α) → β → List (String × α)}
    (hstep : ∀ m x, (∀ v ∈ m.map Prod.snd, P v) → ∀ v ∈ (step m x).map Prod.snd, P v)
    (l : List β) (m : List (String × α)) (hm : ∀ v ∈ m.map Prod.snd, P v) :
    ∀ v ∈ (l.foldl step m).map Prod.snd, P v := by
  induction l generalizing m with
  | nil => exact hm
  | cons x xs ih => exact ih (step m x) (hstep m x hm)

theorem goMapInsert_append_of_not_mem {α : Type} {m : List (String × α)}
    {k : String} {v : α} (h : k ∉ m.map Prod.fst) :
    goMapInsert m k v = m ++ [(k, v)] := by
  have hany : m.any (fun p => p.1 == k) = false := by
    rw [List.any_eq_false]
    intro p hp
    simp only [beq_iff_eq]
    intro hpk
    exact h (List.mem_map.mpr ⟨p, hp, hpk⟩)
  simp [goMapInsert, hany]

theorem foldl_insert_filter {α : Type} (key : α → String) (p : α → Bool) :
    ∀ (l : List α) (m : List (String × α)),
      ((l.filter p).map key).Nodup →
      (∀ x ∈ l, p x = true → key x ∉ m.map Prod.fst) →
      l.foldl (fun m x => if p x then goMapInsert m (key x) x else m) m
        = m ++ (l.filter p).map (fun x => (key x, x)) := by
  intro l
  induction l with
  | nil => intro m _ _; simp
  | cons x xs ih =>
    intro m hnd hfresh
    by_cases hpx : p x = true
    · rw [List.filter_cons_of_pos hpx] at hnd ⊢
      simp only [List.foldl_cons, if_pos hpx]
      rw [goMapInsert_append_of_not_mem (hfresh x (List.mem_cons_self x xs) hpx)]
      simp only [List.map_cons, List.nodup_cons] at hnd
      have hfresh' : ∀ y ∈ xs, p y = true → key y ∉ (m ++ [(key x, x)]).map Prod.fst := by
        intro y hy hpy
        rw [List.map_append, List.mem_append]
        rintro (hmem | hmem)
        · exact hfresh y (List.mem_cons_of_mem x hy) hpy hmem
        · simp at hmem
          exact hnd.1 (hmem ▸ List.mem_map.mpr ⟨y, List.mem_filter.mpr ⟨hy, hpy⟩, rfl⟩)
      rw [ih (m ++ [(key x, x)]) hnd.2 hfresh']
      simp
    · rw [List.filter_cons_of_neg (by simpa using hpx)] at hnd ⊢
      simp only [List.foldl_cons, if_neg hpx]
      exact ih m hnd (fun y hy hpy => hfresh y (List.mem_cons_of_mem x hy) hpy)

/-- An empty pod spec. -/
def emptyPodSpec : PodSpec := ⟨[], []⟩

/-- An empty snapshot. -/
def emptyRes : Resources := ⟨[], [], [], [], [], [], [], [], [], [], []⟩

/-- C6: for every ownerKind and ownerName, GetPodsByOwner returns exactly the
pods of the snapshot whose owner-reference list contains an entry with that
kind and name, under exact case-sensitive equality; an empty result is the
ordinary value of the same total function, not an error. -/
theorem getPodsByOwner_exact (r : Resources) (ownerKind ownerName : String) (p : Pod) :
    p ∈ GetPodsByOwner r ownerKind ownerName ↔
      p ∈ r.pods ∧ ∃ o ∈ p.ownerReferences, o.kind = ownerKind ∧ o.name = ownerName := by
  simp [GetPodsByOwner, List.mem_filter, List.any_eq_true]

/-- C7: BuildTree returns the distinguished "no resources" signal exactly when
the Deployment, StatefulSet, DaemonSet, Job and CronJob collections are all
empty, regardless of the other collections; otherwise it returns a tree
whose root is a Namespace node named after the namespace. -/
theorem buildTree_empty_signal (e : MapExtract) (ns : String) (r : Resources) :
    (BuildTree e ns r = none ↔
      r.deployments = [] ∧ r.statefulSets = [] ∧ r.daemonSets = [] ∧
        r.jobs = [] ∧ r.cronJobs = []) ∧
    (∀ t, BuildTree e ns r = some t → t.kind = "Namespace" ∧ t.name = ns) := by
  simp only [BuildTree]
  by_cases hc : (r.deployments.isEmpty && r.statefulSets.isEmpty && r.daemonSets.isEmpty &&
      r.jobs.isEmpty && r.cronJobs.isEmpty) = true
  · rw [if_pos hc]
    simp only [Bool.and_eq_true, List.isEmpty_iff] at hc
    obtain ⟨⟨⟨⟨h1, h2⟩, h3⟩, h4⟩, h5⟩ := hc
    refine ⟨⟨fun _ => ⟨h1, h2, h3, h4, h5⟩, fun _ => rfl⟩, ?_⟩
    intro t ht
    cases ht
  · rw [if_neg hc]
    refine ⟨⟨fun h => Option.noConfusion h, ?_⟩, ?_⟩
    · rintro ⟨h1, h2, h3, h4, h5⟩
      exact absurd (by simp [h1, h2, h3, h4, h5]) hc
    · intro t ht
      rw [← Option.some.inj ht]
      exact ⟨rfl, rfl⟩

/-- A snapshot holding only a standalone Service. -/
def resSvcOnly : Resources :=
  { emptyRes with services := [⟨"lonely", some [("app", "web")]⟩] }

/-- A snapshot holding one Deployment named web with no references. -/
def resOneDep : Resources :=
  { emptyRes with deployments := [⟨"web", [], emptyPodSpec⟩] }

/-- Witness for C7: a namespace with only a Service yields the signal, and a
namespace with one Deployment yields a Namespace-rooted tree. -/
theorem buildTree_empty_signal_witness :
    BuildTree extractInsertion "demo" resSvcOnly = none ∧
    (Resource.mk "Namespace" "demo" [Resource.mk "Deployment" "web" []]).kind = "Namespace" ∧
    (Resource.mk "Namespace" "demo" [Resource.mk "Deployment" "web" []]).name = "demo" :=
  ⟨(buildTree_empty_signal extractInsertion "demo" resSvcOnly).1.mpr
      ⟨rfl, rfl, rfl, rfl, rfl⟩,
   (buildTree_empty_signal extractInsertion "demo" resOneDep).2
      (Resource.mk "Namespace" "demo" [Resource.mk "Deployment" "web" []]) rfl⟩

theorem foldl_values_sat_mem {α : Type} {β : Type} {P : α → Prop}
    {step : List (String × α) → β → List (String × α)} :
    ∀ (l : List β) (m : List (String × α)),
      (∀ m' x, x ∈ l → (∀ v ∈ m'.map Prod.snd, P v) → ∀ v ∈ (step m' x).map Prod.snd, P v) →
      (∀ v ∈ m.map Prod.snd, P v) →
      ∀ v ∈ (l.foldl step m).map Prod.snd, P v := by
  intro l
  induction l with
  | nil => intro m _ hm; exact hm
  | cons x xs ih =>
    intro m hstep hm
    exact ih (step m x)
      (fun m' y hy => hstep m' y (List.mem_cons_of_mem x hy))
      (hstep m x (List.mem_cons_self x xs) hm)

/-- The per-volume pvcMap step of FindRelatedResources keeps existing keys. -/
theorem volumePVCs_keys_mono (r : Resources) (wk wn : String) (vols : List Volume)
    (seed : List (String × PVC)) {k : String} (hk : k ∈ seed.map Prod.fst) :
    k ∈ (volumePVCs r wk wn vols seed).map Prod.fst := by
  apply foldl_keys_mono _ vols seed k hk
  intro m vol k' hk'
  cases hvol : vol.persistentVolumeClaim with
  | none => simpa [hvol] using hk'
  | some claimName =>
    simp only [hvol]
    cases hfind : r.pvcs.find? (fun pvc => pvc.name == claimName) with
    | some pvc =>
      simp only [hfind]
      exact mem_keys_goMapInsert.mpr (Or.inr hk')
    | none =>
      simp only [hfind]
      by_cases hsts : wk == "StatefulSet"
      · simp only [if_pos hsts]
        apply foldl_keys_mono _ r.pvcs m k' hk'
        intro m' pvc k'' hk''
        by_cases hcont : strContains pvc.name wn = true
        · simpa [hcont] using mem_keys_goMapInsert.mpr (Or.inr hk'')
        · simpa [hcont] using hk''
      · simpa [hsts] using hk'

/-- Keys of the volume-claim-template seed: each template whose derived PVC
name is present in the collection contributes that key. -/
theorem vctSeedMap_key_hit (r : Resources) (sts : StatefulSet) {T : String}
    (hT : T ∈ sts.volumeClaimTemplates)
    (hex : ∃ p ∈ r.pvcs, p.name = T ++ "-" ++ sts.name ++ "-0") :
    (T ++ "-" ++ sts.name ++ "-0") ∈ (vctSeedMap r sts).map Prod.fst := by
  obtain ⟨p, hp, hpname⟩ := hex
  have hmono : ∀ (m : List (String × PVC)) (template : String) k,
      k ∈ m.map Prod.fst →
      k ∈ (r.pvcs.foldl
            (fun m' pvc => if pvc.name == template ++ "-" ++ sts.name ++ "-0" then
              goMapInsert m' pvc.name pvc else m') m).map Prod.fst := by
    intro m template k hk
    apply foldl_keys_mono _ r.pvcs m k hk
    intro m' pvc k' hk'
    by_cases hname : pvc.name == template ++ "-" ++ sts.name ++ "-0"
    · simpa [hname] using mem_keys_goMapInsert.mpr (Or.inr hk')
    · simpa [hname] using hk'
  apply foldl_keys_reach hmono hT _ []
  intro m
  have hmono2 : ∀ (m' : List (String × PVC)) (pvc : PVC) (k' : String),
      k' ∈ m'.map Prod.fst →
      k' ∈ ((fun m'' (pvc : PVC) => if pvc.name == T ++ "-" ++ sts.name ++ "-0" then
        goMapInsert m'' pvc.name pvc else m'') m' pvc).map Prod.fst := by
    intro m' pvc k' hk'
    by_cases hname : pvc.name == T ++ "-" ++ sts.name ++ "-0"
    · simpa [hname] using mem_keys_goMapInsert.mpr (Or.inr hk')
    · simpa [hname] using hk'
  apply foldl_keys_reach hmono2 hp _ m
  intro m'
  show T ++ "-" ++ sts.name ++ "-0" ∈
    List.map Prod.fst (if (p.name == T ++ "-" ++ sts.name ++ "-0") = true then
      goMapInsert m' p.name p else m')
  rw [if_pos (show (p.name == T ++ "-" ++ sts.name ++ "-0") = true by simp [hpname])]
  exact mem_keys_goMapInsert.mpr (Or.inl hpname.symm)

/-- Every entry of the pvc pipeline is keyed by the stored PVC's name. -/
theorem vctSeedMap_keyedBy (r : Resources) (sts : StatefulSet) :
    ∀ p ∈ vctSeedMap r sts, p.1 = PVC.name p.2 := by
  apply foldl_keyedBy _ sts.volumeClaimTemplates [] (by simp)
  intro m template hm
  apply foldl_keyedBy _ r.pvcs m hm
  intro m' pvc hm'
  by_cases hname : pvc.name == template ++ "-" ++ sts.name ++ "-0"
  · simpa [hname] using keyedBy_goMapInsert hm'
  · simpa [hname] using hm'

theorem volumePVCs_keyedBy (r : Resources) (wk wn : String) (vols : List Volume)
    (seed : List (String × PVC)) (hseed : ∀ p ∈ seed, p.1 = PVC.name p.2) :
    ∀ p ∈ volumePVCs r wk wn vols seed, p.1 = PVC.name p.2 := by
  apply foldl_keyedBy _ vols seed hseed
  intro m vol hm
  cases hvol : vol.persistentVolumeClaim with
  | none => simpa [hvol] using hm
  | some claimName =>
    simp only [hvol]
    cases hfind : r.pvcs.find? (fun pvc => pvc.name == claimName) with
    | some pvc =>
      simp only [hfind]
      exact keyedBy_goMapInsert hm
    | none =>
      simp only [hfind]
      by_cases hsts : wk == "StatefulSet"
      · simp only [if_pos hsts]
        apply foldl_keyedBy _ r.pvcs m hm
        intro m' pvc hm'
        by_cases hcont : strContains pvc.name wn = true
        · simpa [hcont] using keyedBy_goMapInsert hm'
        · simpa [hcont] using hm'
      · simpa [hsts] using hm

/-- Values of the volume-claim-template seed all follow the derived naming
pattern ending in the first ordinal. -/
theorem vctSeedMap_values_pattern (r : Resources) (sts : StatefulSet) :
    ∀ q ∈ (vctSeedMap r sts).map Prod.snd,
      ∃ t ∈ sts.volumeClaimTemplates, q.name = t ++ "-" ++ sts.name ++ "-0" := by
  rw [vctSeedMap]
  refine foldl_values_sat_mem sts.volumeClaimTemplates [] ?_ (by simp)
  intro m template hmem hm
  apply foldl_values_sat _ r.pvcs m hm
  intro m' pvc hm'
  by_cases hname : pvc.name == template ++ "-" ++ sts.name ++ "-0"
  · simp only [if_pos hname]
    exact values_goMapInsert ⟨template, hmem, by simpa using hname⟩ hm'
  · simpa [hname] using hm'

/-- C9: for every StatefulSet with a volume claim template T, a PVC named
T-name-0 present in the collection is attached among the related PVCs, and
the volume-claim-template rule only ever contributes PVCs whose name is a
template name, a dash, the workload name, and the ordinal zero suffix, so a
higher ordinal is never attached by this rule. -/
theorem statefulSetVCTpvc (e : MapExtract) (r : Resources) (sts : StatefulSet)
    (T : String) (ps : PodSpec) (found : List String)
    (he : ValidExtract e) (hT : T ∈ sts.volumeClaimTemplates)
    (hex : ∃ p ∈ r.pvcs, p.name = T ++ "-" ++ sts.name ++ "-0") :
    (∃ q ∈ (FindRelatedResources e r (.statefulSet sts) (some ps) found).2.2.2,
        q.name = T ++ "-" ++ sts.name ++ "-0") ∧
    (∀ q ∈ (vctSeedMap r sts).map Prod.snd,
        ∃ t ∈ sts.volumeClaimTemplates, q.name = t ++ "-" ++ sts.name ++ "-0") := by
  refine ⟨?_, vctSeedMap_values_pattern r sts⟩
  have hkey : (T ++ "-" ++ sts.name ++ "-0") ∈
      (volumePVCs r "StatefulSet" sts.name ps.volumes (vctSeedMap r sts)).map Prod.fst :=
    volumePVCs_keys_mono r "StatefulSet" sts.name ps.volumes (vctSeedMap r sts)
      (vctSeedMap_key_hit r sts hT hex)
  have hkb := volumePVCs_keyedBy r "StatefulSet" sts.name ps.volumes (vctSeedMap r sts)
    (vctSeedMap_keyedBy r sts)
  obtain ⟨q, hq, hqname⟩ := values_keyedBy_of_mem_keys hkb hkey
  refine ⟨q, ?_, hqname⟩
  have : (FindRelatedResources e r (.statefulSet sts) (some ps) found).2.2.2 =
      e _ (volumePVCs r "StatefulSet" sts.name ps.volumes (vctSeedMap r sts)) := rfl
  rw [this, extract_mem he]
  exact hq

/-- The db StatefulSet of the C9 scenario. -/
def stsDb : StatefulSet := ⟨"db", [], emptyPodSpec, ["data"]⟩

/-- The snapshot of the C9 scenario: PVCs for ordinals zero and one. -/
def resC9 : Resources :=
  { emptyRes with pvcs := [⟨"data-db-0"⟩, ⟨"data-db-1"⟩], statefulSets := [stsDb] }

/-- Witness for C9 at the db StatefulSet with template data. -/
theorem statefulSetVCTpvc_witness :
    (∃ q ∈ (FindRelatedResources extractInsertion resC9 (.statefulSet stsDb)
        (some emptyPodSpec) []).2.2.2, q.name = "data" ++ "-" ++ "db" ++ "-0") ∧
    (∀ q ∈ (vctSeedMap resC9 stsDb).map Prod.snd,
        ∃ t ∈ stsDb.volumeClaimTemplates, q.name = t ++ "-" ++ "db" ++ "-0") :=
  statefulSetVCTpvc extractInsertion resC9 stsDb "data" emptyPodSpec []
    (fun _ _ => List.Perm.refl _) (by decide) (by decide)

theorem validExtract_insertion : ValidExtract extractInsertion :=
  fun _ _ => List.Perm.refl _

theorem validExtract_reverse : ValidExtract extractReverse :=
  fun _ l => (l.map Prod.snd).reverse_perm

/-- The container of the C4 snapshot: an envFrom ConfigMap reference and an
envFrom Secret reference. -/
def c4Container : Container := ⟨"app", [⟨some "cm1", none⟩, ⟨none, some "s1"⟩], []⟩

/-- The pod spec of the C4 snapshot. -/
def c4PodSpec : PodSpec := ⟨[], [c4Container]⟩

/-- The workload of the C4 snapshot. -/
def c4Dep : Deployment := ⟨"web", [], c4PodSpec⟩

/-- The C4 snapshot: the referenced ConfigMap and Secret both exist. -/
def resC4 : Resources :=
  { emptyRes with configMaps := [⟨"cm1"⟩], secrets := [⟨"s1"⟩], deployments := [c4Dep] }

/-- C4 evaluated at the failing input: the envFrom ConfigMap reference to an
existing ConfigMap attaches nothing, for every possible map enumeration,
while the envFrom Secret reference does attach the Secret. -/
theorem envFromConfigMapIgnored (e : MapExtract) (he : ValidExtract e) :
    (FindRelatedResources e resC4 (.deployment c4Dep) (some c4PodSpec) []).2.1 = [] ∧
    (FindRelatedResources e resC4 (.deployment c4Dep) (some c4PodSpec) []).2.2.1 = [⟨"s1"⟩] :=
  ⟨extract_nil he ConfigMap, extract_singleton he "s1" (Secret.mk "s1")⟩

/-- Witness for C4 at the insertion-order enumeration. -/
theorem envFromConfigMapIgnored_witness :
    ValidExtract extractInsertion ∧
    (FindRelatedResources extractInsertion resC4 (.deployment c4Dep) (some c4PodSpec) []).2.1 = [] ∧
    (FindRelatedResources extractInsertion resC4 (.deployment c4Dep) (some c4PodSpec) []).2.2.1
      = [⟨"s1"⟩] :=
  ⟨validExtract_insertion, envFromConfigMapIgnored extractInsertion validExtract_insertion⟩

/-- The shared volume of the C1 snapshot. -/
def c1Vol : Volume := ⟨some "shared", none, none⟩

/-- The pod spec both C1 deployments use. -/
def c1Ps : PodSpec := ⟨[c1Vol], []⟩

/-- First C1 deployment. -/
def c1D1 : Deployment := ⟨"d1", [], c1Ps⟩

/-- Second C1 deployment. -/
def c1D2 : Deployment := ⟨"d2", [], c1Ps⟩

/-- The C1 snapshot: two sibling Deployments referencing one ConfigMap. -/
def resC1 : Resources :=
  { emptyRes with configMaps := [⟨"shared"⟩], deployments := [c1D1, c1D2] }

/-- C1 evaluated at the failing input: the shared ConfigMap is attached under
both sibling Deployments, for every possible map enumeration; the found map
created by BuildTree is never consulted, so no cross-workload
deduplication happens. -/
theorem foundMapUnused (e : MapExtract) (he : ValidExtract e) :
    BuildTree e "demo" resC1 = some (Resource.mk "Namespace" "demo"
      [Resource.mk "Deployment" "d1" [Resource.mk "ConfigMap" "shared" []],
       Resource.mk "Deployment" "d2" [Resource.mk "ConfigMap" "shared" []]]) := by
  have hrel1 : relatedChildNodes e resC1 (Workload.deployment c1D1) [] =
      [Resource.mk "ConfigMap" "shared" []] := by
    have hshape : relatedChildNodes e resC1 (Workload.deployment c1D1) [] =
        (e Service []).map (fun s => Resource.mk "Service" s.name []) ++
        (e ConfigMap [("shared", ⟨"shared"⟩)]).map (fun c => Resource.mk "ConfigMap" c.name []) ++
        (e Secret []).map (fun s => Resource.mk "Secret" s.name []) ++
        (e PVC []).map (fun p => Resource.mk "PersistentVolumeClaim" p.name []) := rfl
    rw [hshape, extract_nil he Service, extract_nil he Secret, extract_nil he PVC,
      extract_singleton he "shared" (ConfigMap.mk "shared")]
    rfl
  have hrel2 : relatedChildNodes e resC1 (Workload.deployment c1D2) [] =
      [Resource.mk "ConfigMap" "shared" []] := by
    have hshape : relatedChildNodes e resC1 (Workload.deployment c1D2) [] =
        (e Service []).map (fun s => Resource.mk "Service" s.name []) ++
        (e ConfigMap [("shared", ⟨"shared"⟩)]).map (fun c => Resource.mk "ConfigMap" c.name []) ++
        (e Secret []).map (fun s => Resource.mk "Secret" s.name []) ++
        (e PVC []).map (fun p => Resource.mk "PersistentVolumeClaim" p.name []) := rfl
    rw [hshape, extract_nil he Service, extract_nil he Secret, extract_nil he PVC,
      extract_singleton he "shared" (ConfigMap.mk "shared")]
    rfl
  have hsplit : BuildTree e "demo" resC1 = some (Resource.mk "Namespace" "demo"
      ([Resource.mk "Deployment" "d1" (relatedChildNodes e resC1 (Workload.deployment c1D1) [] ++ []),
        Resource.mk "Deployment" "d2" (relatedChildNodes e resC1 (Workload.deployment c1D2) [] ++ [])]
       ++ [] ++ [] ++ [] ++ [])) := rfl
  rw [hsplit, hrel1, hrel2]
  rfl

/-- Witness for C1 at the insertion-order enumeration. -/
theorem foundMapUnused_witness :
    ValidExtract extractInsertion ∧
    BuildTree extractInsertion "demo" resC1 = some (Resource.mk "Namespace" "demo"
      [Resource.mk "Deployment" "d1" [Resource.mk "ConfigMap" "shared" []],
       Resource.mk "Deployment" "d2" [Resource.mk "ConfigMap" "shared" []]]) :=
  ⟨validExtract_insertion, foundMapUnused extractInsertion validExtract_insertion⟩

/-- The container of the C3 snapshot: two envFrom Secret references. -/
def c3Container : Container := ⟨"app", [⟨none, some "s1"⟩, ⟨none, some "s2"⟩], []⟩

/-- The workload of the C3 snapshot. -/
def c3Dep : Deployment := ⟨"web", [], ⟨[], [c3Container]⟩⟩

/-- The C3 snapshot: one Deployment related to two Secrets. -/
def resC3 : Resources :=
  { emptyRes with secrets := [⟨"s1"⟩, ⟨"s2"⟩], deployments := [c3Dep] }

/-- The tree built for the C3 snapshot under insertion-order enumeration. -/
def c3Tree1 : Resource :=
  .mk "Namespace" "ns" [.mk "Deployment" "web" [.mk "Secret" "s1" [], .mk "Secret" "s2" []]]

/-- The tree built for the C3 snapshot under reverse enumeration. -/
def c3Tree2 : Resource :=
  .mk "Namespace" "ns" [.mk "Deployment" "web" [.mk "Secret" "s2" [], .mk "Secret" "s1" []]]

/-- C3: two enumerations of the dedup maps that are both permutations of the
stored values, as Go's randomized map iteration permits, render different
output lines for the same snapshot. -/
theorem renderNotDeterministic :
    ValidExtract extractInsertion ∧ ValidExtract extractReverse ∧
    BuildAndRender false extractInsertion "ns" resC3 ≠
      BuildAndRender false extractReverse "ns" resC3 := by
  refine ⟨validExtract_insertion, validExtract_reverse, ?_⟩
  have hb1 : BuildTree extractInsertion "ns" resC3 = some c3Tree1 := rfl
  have hb2 : BuildTree extractReverse "ns" resC3 = some c3Tree2 := rfl
  have hr1 : BuildAndRender false extractInsertion "ns" resC3 =
      some (printTree false c3Tree1 "" true) := by
    rw [BuildAndRender, hb1]
  have hr2 : BuildAndRender false extractReverse "ns" resC3 =
      some (printTree false c3Tree2 "" true) := by
    rw [BuildAndRender, hb2]
  rw [hr1, hr2]
  have hp1 : printTree false c3Tree1 "" true =
      ["└── Namespace/ns\x1b[0m",
       "    └── Deployment/web\x1b[0m",
       "        ├── Secret/s1\x1b[0m",
       "        └── Secret/s2\x1b[0m"] := by
    simp [c3Tree1, printTree, printForest, getConnector, getResourceColor, colorReset]
  have hp2 : printTree false c3Tree2 "" true =
      ["└── Namespace/ns\x1b[0m",
       "    └── Deployment/web\x1b[0m",
       "        ├── Secret/s2\x1b[0m",
       "        └── Secret/s1\x1b[0m"] := by
    simp [c3Tree2, printTree, printForest, getConnector, getResourceColor, colorReset]
  rw [hp1, hp2]
  decide

/-- The serviceMap is the matching services, keyed by name, when service
names are unique. -/
theorem relatedServiceMap_eq (r : Resources) (wl : List (String × String)) (wk wn : String)
    (hnd : (r.services.map Service.name).Nodup) :
    relatedServiceMap r wl wk wn =
      (r.services.filter (serviceMatches wl wk wn)).map (fun s => (s.name, s)) := by
  rw [relatedServiceMap]
  have hsub : ((r.services.filter (serviceMatches wl wk wn)).map Service.name).Nodup :=
    hnd.sublist ((r.services.filter_sublist).map Service.name)
  have := foldl_insert_filter Service.name (serviceMatches wl wk wn) r.services []
    hsub (by simp)
  simpa using this

/-- The per-service decision of the code coincides with the amended service
relation. -/
theorem serviceMatches_iff_amended (w : Workload) (s : Service) :
    serviceMatches w.getLabels w.goKind w.getName s = true ↔ relatedServiceAmended w s := by
  cases hsel : s.selector with
  | none => simp [serviceMatches, relatedServiceAmended, hsel]
  | some sel =>
    simp only [serviceMatches, relatedServiceAmended, hsel, Option.some.injEq,
      exists_eq_left']
    by_cases hm : (if sel.length > 0 then
        sel.all (fun kv => goMapLookup w.getLabels kv.1 == kv.2) else false) = true
    · rw [hm]
      have hlen : sel.length > 0 := by
        by_contra hlen
        rw [if_neg hlen] at hm
        exact Bool.noConfusion hm
      rw [if_pos hlen] at hm
      simp only [List.all_eq_true, beq_iff_eq] at hm
      constructor
      · intro _
        exact Or.inl ⟨List.ne_nil_of_length_pos hlen, hm⟩
      · intro _
        rfl
    · rw [Bool.not_eq_true] at hm
      rw [hm]
      have hfirst : ¬(sel ≠ [] ∧ ∀ kv ∈ sel, goMapLookup w.getLabels kv.1 = kv.2) := by
        rintro ⟨hne, hall⟩
        have hcontr : (if sel.length > 0 then
            sel.all (fun kv => goMapLookup w.getLabels kv.1 == kv.2) else false) = true := by
          rw [if_pos (List.length_pos.mpr hne)]
          simp only [List.all_eq_true, beq_iff_eq]
          exact hall
        rw [hm] at hcontr
        exact Bool.noConfusion hcontr
      simp only [Bool.not_false, Bool.true_and]
      by_cases hsts : (w.goKind == "StatefulSet") = true
      · constructor
        · intro h
          rw [if_pos hsts] at h
          simp only [Bool.or_eq_true, beq_iff_eq] at h
          exact Or.inr ⟨by simpa using hsts, h⟩
        · intro h
          rw [if_pos hsts]
          rcases h with h | ⟨_, h⟩
          · exact absurd h hfirst
          · simpa [Bool.or_eq_true, beq_iff_eq] using h
      · constructor
        · intro h
          rw [if_neg hsts] at h
          exact Bool.noConfusion h
        · intro h
          rcases h with h | ⟨hk, _⟩
          · exact absurd h hfirst
          · exact absurd (show (w.goKind == "StatefulSet") = true by simpa using hk) hsts

/-- C5 amended: for every possible map enumeration and snapshot with unique
service names, a service is returned among the related services exactly
when its selector is non-nil and either it is non-empty and every selector
pair agrees with the workload labels under Go map indexing, with absent
keys reading as the empty string, or the workload is a StatefulSet and the
service name equals the workload name, possibly with the "-headless"
suffix. -/
theorem serviceRelatedAmended (e : MapExtract) (r : Resources) (w : Workload)
    (ps : Option PodSpec) (found : List String) (s : Service)
    (he : ValidExtract e) (hnd : (r.services.map Service.name).Nodup) :
    s ∈ (FindRelatedResources e r w ps found).1 ↔
      s ∈ r.services ∧ relatedServiceAmended w s := by
  have h1 : (FindRelatedResources e r w ps found).1 =
      e _ (relatedServiceMap r w.getLabels w.goKind w.getName) := by
    cases ps <;> rfl
  rw [h1, extract_mem he, relatedServiceMap_eq r _ _ _ hnd, List.map_map]
  have hcomp : (Prod.snd ∘ fun s : Service => (s.name, s)) = id := rfl
  rw [hcomp, List.map_id, List.mem_filter]
  exact and_congr_right (fun _ => serviceMatches_iff_amended w s)

/-- The StatefulSet of the C5 counterexample. -/
def c5Sts : StatefulSet := ⟨"db", [], emptyPodSpec, []⟩

/-- A Service with the StatefulSet's name but a nil selector. -/
def c5Svc : Service := ⟨"db", none⟩

/-- The C5 counterexample snapshot. -/
def resC5 : Resources := { emptyRes with services := [c5Svc], statefulSets := [c5Sts] }

/-- C5 counterexample: the claim's relation holds for the nil-selector
Service named after the StatefulSet, yet the code returns no related
services, because a nil selector is skipped before the StatefulSet name
rule is ever consulted. -/
theorem nilSelectorStsService :
    relatedServiceClaim (.statefulSet c5Sts) c5Svc ∧
    c5Svc ∈ resC5.services ∧
    (FindRelatedResources extractInsertion resC5 (.statefulSet c5Sts)
      (some emptyPodSpec) []).1 = [] :=
  ⟨Or.inr ⟨rfl, Or.inl rfl⟩, by decide, rfl⟩

/-- The Service of the C5 witness. -/
def c5wSvc : Service := ⟨"websvc", some [("app", "web")]⟩

/-- The Deployment of the C5 witness. -/
def c5wDep : Deployment := ⟨"web", [("app", "web")], emptyPodSpec⟩

/-- The C5 witness snapshot. -/
def resC5w : Resources := { emptyRes with services := [c5wSvc], deployments := [c5wDep] }

/-- Witness for the amended C5 theorem at a concrete matching pair. -/
theorem serviceRelatedAmended_witness :
    ValidExtract extractInsertion ∧ (resC5w.services.map Service.name).Nodup ∧
    (c5wSvc ∈ (FindRelatedResources extractInsertion resC5w (.deployment c5wDep)
        (some emptyPodSpec) []).1 ↔
      c5wSvc ∈ resC5w.services ∧ relatedServiceAmended (.deployment c5wDep) c5wSvc) :=
  ⟨validExtract_insertion, by decide,
   serviceRelatedAmended extractInsertion resC5w (.deployment c5wDep) (some emptyPodSpec) []
     c5wSvc validExtract_insertion (by decide)⟩

/-- The C2 snapshot: two Deployments in reverse-alphabetical collection
order. -/
def resC2 : Resources :=
  { emptyRes with deployments := [⟨"b", [], emptyPodSpec⟩, ⟨"a", [], emptyPodSpec⟩] }

/-- The tree BuildTree produces for the C2 snapshot. -/
def c2Tree : Resource :=
  .mk "Namespace" "ns" [.mk "Deployment" "b" [], .mk "Deployment" "a" []]

/-- C2 counterexample: the tree returned by BuildTree keeps the insertion
order of its children and is not sorted by kind and name at the root. -/
theorem builtTreeNotSorted :
    BuildTree extractInsertion "ns" resC2 = some c2Tree ∧ treeSortedB c2Tree = false := by
  refine ⟨rfl, ?_⟩
  simp only [c2Tree, treeSortedB, forestSortedB, chainLe, nodeLe]
  decide

theorem sortChildrenForest_eq_map (l : List Resource) :
    sortChildrenForest l = l.map SortChildren := by
  induction l with
  | nil => simp [sortChildrenForest]
  | cons c cs ih => simp [sortChildrenForest, ih]

theorem SortChildren_kind (r : Resource) : (SortChildren r).kind = r.kind := by
  cases r with
  | mk k n cs => simp [SortChildren, Resource.kind]

theorem SortChildren_name (r : Resource) : (SortChildren r).name = r.name := by
  cases r with
  | mk k n cs => simp [SortChildren, Resource.name]

theorem forestSortedB_eq_all (l : List Resource) :
    forestSortedB l = l.all treeSortedB := by
  induction l with
  | nil => simp [forestSortedB]
  | cons c cs ih => simp [forestSortedB, ih]

theorem chainLe_of_pairwise {l : List Resource}
    (h : List.Pairwise (fun a b => nodeLe a b = true) l) : chainLe l = true := by
  induction h with
  | nil => rfl
  | cons hhead htail ih =>
    rename_i a t
    cases t with
    | nil => rfl
    | cons b t' =>
      rw [chainLe, ih, hhead b (List.mem_cons_self b t')]
      rfl

/-- C2 amended: SortChildren yields a tree whose children are sorted
ascending by kind then name at every depth; BuildTree, however, never
invokes it (see the counterexample). -/
theorem sortChildren_sorts : ∀ r : Resource, treeSortedB (SortChildren r) = true := by
  refine Resource.strongInd _ ?_
  intro k n cs ih
  rw [SortChildren, sortChildrenForest_eq_map, treeSortedB]
  have hsorted := List.sorted_mergeSort sortLe_trans sortLe_total cs
  have hpair : List.Pairwise (fun a b => nodeLe a b = true)
      ((cs.mergeSort sortLe).map SortChildren) := by
    rw [List.pairwise_map]
    refine hsorted.imp ?_
    intro a b hab
    have hn := sortLe_imp_nodeLe hab
    rw [nodeLe] at hn ⊢
    rw [SortChildren_kind, SortChildren_kind, SortChildren_name, SortChildren_name]
    exact hn
  have hforest : forestSortedB ((cs.mergeSort sortLe).map SortChildren) = true := by
    rw [forestSortedB_eq_all, List.all_eq_true]
    intro c hc
    rw [List.mem_map] at hc
    obtain ⟨c0, hc0, rfl⟩ := hc
    exact ih c0 (List.mem_mergeSort.mp hc0)
  rw [chainLe_of_pairwise hpair, hforest]
  rfl

/-- C8 counterexample: even with color disabled, a rendered line carries the
unconditional trailing ANSI reset sequence, so it is not of the bare
prefix-connector-kind-slash-name form. -/
theorem renderedLineHasReset :
    printTree false (.mk "Namespace" "demo" []) "" true =
      ["" ++ "└── " ++ "Namespace" ++ "/" ++ "demo" ++ "\x1b[0m"] ∧
    printTree false (.mk "Namespace" "demo" []) "" true ≠
      ["" ++ "└── " ++ "Namespace" ++ "/" ++ "demo"] := by
  have h1 : printTree false (.mk "Namespace" "demo" []) "" true =
      ["" ++ "└── " ++ "Namespace" ++ "/" ++ "demo" ++ "\x1b[0m"] := by
    simp [printTree, printForest, getConnector, getResourceColor, colorReset]
  refine ⟨h1, ?_⟩
  rw [h1]
  decide

theorem printForest_eq_spec (cs : List Resource)
    (h : ∀ c ∈ cs, ∀ (pre : String) (isLast : Bool),
      printTree false c pre isLast = renderSpecLines c pre isLast) :
    ∀ pre : String, printForest false cs pre = renderSpecForest cs pre := by
  induction cs with
  | nil =>
    intro pre
    rw [printForest, renderSpecForest]
  | cons c t ih =>
    intro pre
    cases t with
    | nil =>
      rw [printForest, renderSpecForest]
      exact h c (List.mem_cons_self c []) pre true
    | cons c' t' =>
      rw [printForest, renderSpecForest,
        h c (List.mem_cons_self c (c' :: t')) pre false,
        ih (fun x hx => h x (List.mem_cons_of_mem c hx)) pre]

/-- C8 amended: with color disabled, rendering equals the claimed
depth-first pre-order line discipline amended with the trailing reset
sequence on every line, and the build-and-render flow renders the root with
an empty prefix as the last node. -/
theorem printTree_eq_renderSpec :
    (∀ (r : Resource) (pre : String) (isLast : Bool),
      printTree false r pre isLast = renderSpecLines r pre isLast) ∧
    (∀ (e : MapExtract) (ns : String) (rs : Resources),
      BuildAndRender false e ns rs =
        (BuildTree e ns rs).map (fun root => renderSpecLines root "" true)) := by
  have hmain : ∀ (r : Resource) (pre : String) (isLast : Bool),
      printTree false r pre isLast = renderSpecLines r pre isLast := by
    refine Resource.strongInd _ ?_
    intro k n cs ih pre isLast
    rw [printTree, renderSpecLines]
    congr 1
    · simp [getConnector, getResourceColor, colorReset, String.append_empty]
    · exact printForest_eq_spec cs (fun c hc => ih c hc) _
  refine ⟨hmain, ?_⟩
  intro e ns rs
  rw [BuildAndRender]
  cases hb : BuildTree e ns rs with
  | none => rfl
  | some root => simp [hmain root "" true]

theorem kind_mk (k n : String) (cs : List Resource) : (Resource.mk k n cs).kind = k := rfl

/-- A node is faithful to the pod collection when, if it is a Pod node, it
stems from a pod of the snapshot and its children are exactly that pod's
Container nodes in declaration order. -/
def podNodeFaithful (r : Resources) (n : Resource) : Prop :=
  n.kind = "Pod" → ∃ p ∈ r.pods, p.name = n.name ∧ n.children = containerNodes p

theorem getPodsByOwner_sub {r : Resources} {K N : String} {p : Pod}
    (h : p ∈ GetPodsByOwner r K N) : p ∈ r.pods :=
  (List.mem_filter.mp h).1

theorem mem_subnodes_leaf {r : Resources} {K nm : String} (hK : K ≠ "Pod") :
    ∀ m ∈ subnodes (.mk K nm []), podNodeFaithful r m := by
  intro m hm
  rcases mem_subnodes.mp hm with rfl | ⟨c, hc, _⟩
  · intro hk
    exact absurd hk hK
  · cases hc

theorem mem_subnodes_podNode {r : Resources} {p : Pod} (hp : p ∈ r.pods) :
    ∀ m ∈ subnodes (podNode p), podNodeFaithful r m := by
  intro m hm
  rcases mem_subnodes.mp hm with rfl | ⟨c, hc, hmc⟩
  · intro _
    exact ⟨p, hp, rfl, rfl⟩
  · rw [containerNodes, List.mem_map] at hc
    obtain ⟨cont, _, rfl⟩ := hc
    exact mem_subnodes_leaf (by decide) m hmc

theorem mem_subnodes_related {e : MapExtract} {rs r : Resources}
    {w : Workload} {found : List String} :
    ∀ c ∈ relatedChildNodes e rs w found, ∀ m ∈ subnodes c, podNodeFaithful r m := by
  intro c hc
  have hform : relatedChildNodes e rs w found =
      (FindRelatedResources e rs w (some w.podSpec) found).1.map
        (fun s => Resource.mk "Service" s.name []) ++
      (FindRelatedResources e rs w (some w.podSpec) found).2.1.map
        (fun c => Resource.mk "ConfigMap" c.name []) ++
      (FindRelatedResources e rs w (some w.podSpec) found).2.2.1.map
        (fun s => Resource.mk "Secret" s.name []) ++
      (FindRelatedResources e rs w (some w.podSpec) found).2.2.2.map
        (fun p => Resource.mk "PersistentVolumeClaim" p.name []) := rfl
  rw [hform] at hc
  rcases List.mem_append.mp hc with hc' | hc'
  rotate_left
  · rw [List.mem_map] at hc'
    obtain ⟨x, _, rfl⟩ := hc'
    exact mem_subnodes_leaf (by decide)
  rcases List.mem_append.mp hc' with hc'' | hc''
  rotate_left
  · rw [List.mem_map] at hc''
    obtain ⟨x, _, rfl⟩ := hc''
    exact mem_subnodes_leaf (by decide)
  rcases List.mem_append.mp hc'' with hc''' | hc'''
  · rw [List.mem_map] at hc'''
    obtain ⟨x, _, rfl⟩ := hc'''
    exact mem_subnodes_leaf (by decide)
  · rw [List.mem_map] at hc'''
    obtain ⟨x, _, rfl⟩ := hc'''
    exact mem_subnodes_leaf (by decide)

theorem mem_subnodes_deploymentNode {e : MapExtract} {r : Resources}
    {found : List String} {d : Deployment} :
    ∀ m ∈ subnodes (deploymentNode e r found d), podNodeFaithful r m := by
  intro m hm
  rcases mem_subnodes.mp hm with rfl | ⟨c, hc, hmc⟩
  · intro hk
    rw [kind_mk] at hk
    exact absurd hk (by decide)
  · rcases List.mem_append.mp hc with hc' | hc'
    · exact mem_subnodes_related c hc' m hmc
    · rw [List.mem_map] at hc'
      obtain ⟨rs, _, rfl⟩ := hc'
      rcases mem_subnodes.mp hmc with rfl | ⟨c', hc'', hmc'⟩
      · intro hk
        rw [kind_mk] at hk
        exact absurd hk (by decide)
      · rw [List.mem_map] at hc''
        obtain ⟨p, hp, rfl⟩ := hc''
        exact mem_subnodes_podNode (getPodsByOwner_sub hp) m hmc'

theorem mem_subnodes_statefulSetNode {e : MapExtract} {r : Resources}
    {found : List String} {s : StatefulSet} :
    ∀ m ∈ subnodes (statefulSetNode e r found s), podNodeFaithful r m := by
  intro m hm
  rcases mem_subnodes.mp hm with rfl | ⟨c, hc, hmc⟩
  · intro hk
    rw [kind_mk] at hk
    exact absurd hk (by decide)
  · rcases List.mem_append.mp hc with hc' | hc'
    · exact mem_subnodes_related c hc' m hmc
    · rw [List.mem_map] at hc'
      obtain ⟨p, hp, rfl⟩ := hc'
      exact mem_subnodes_podNode (getPodsByOwner_sub hp) m hmc

theorem mem_subnodes_daemonSetNode {e : MapExtract} {r : Resources}
    {found : List String} {d : DaemonSet} :
    ∀ m ∈ subnodes (daemonSetNode e r found d), podNodeFaithful r m := by
  intro m hm
  rcases mem_subnodes.mp hm with rfl | ⟨c, hc, hmc⟩
  · intro hk
    rw [kind_mk] at hk
    exact absurd hk (by decide)
  · rcases List.mem_append.mp hc with hc' | hc'
    · exact mem_subnodes_related c hc' m hmc
    · rw [List.mem_map] at hc'
      obtain ⟨p, hp, rfl⟩ := hc'
      exact mem_subnodes_podNode (getPodsByOwner_sub hp) m hmc

theorem mem_subnodes_jobNode {e : MapExtract} {r : Resources}
    {found : List String} {j : Job} :
    ∀ m ∈ subnodes (jobNode e r found j), podNodeFaithful r m := by
  intro m hm
  rcases mem_subnodes.mp hm with rfl | ⟨c, hc, hmc⟩
  · intro hk
    rw [kind_mk] at hk
    exact absurd hk (by decide)
  · rcases List.mem_append.mp hc with hc' | hc'
    · exact mem_subnodes_related c hc' m hmc
    · rw [List.mem_map] at hc'
      obtain ⟨p, hp, rfl⟩ := hc'
      exact mem_subnodes_podNode (getPodsByOwner_sub hp) m hmc

theorem mem_subnodes_cronJobNode {r : Resources} {c : CronJob} :
    ∀ m ∈ subnodes (cronJobNode r c), podNodeFaithful r m := by
  intro m hm
  rcases mem_subnodes.mp hm with rfl | ⟨c', hc', hmc⟩
  · intro hk
    rw [kind_mk] at hk
    exact absurd hk (by decide)
  · rw [List.mem_map] at hc'
    obtain ⟨j, _, rfl⟩ := hc'
    rcases mem_subnodes.mp hmc with rfl | ⟨c'', hc'', hmc'⟩
    · intro hk
      rw [kind_mk] at hk
      exact absurd hk (by decide)
    · rw [List.mem_map] at hc''
      obtain ⟨p, hp, rfl⟩ := hc''
      exact mem_subnodes_podNode (getPodsByOwner_sub hp) m hmc'

/-- C10: every Pod node anywhere in a tree built by BuildTree corresponds to
a pod of the snapshot and carries one Container child per container of that
pod's spec, in declaration order. -/
theorem podNodesHaveContainers (e : MapExtract) (ns : String) (r : Resources)
    (root n : Resource) (hroot : BuildTree e ns r = some root)
    (hn : n ∈ subnodes root) (hkind : n.kind = "Pod") :
    ∃ p ∈ r.pods, p.name = n.name ∧ n.children = containerNodes p := by
  rw [BuildTree] at hroot
  split at hroot
  · exact Option.noConfusion hroot
  · have hr := (Option.some.inj hroot).symm
    subst hr
    rcases mem_subnodes.mp hn with rfl | ⟨c, hc, hmc⟩
    · rw [kind_mk] at hkind
      exact absurd hkind (by decide)
    · rcases List.mem_append.mp hc with hc' | hc'
      rotate_left
      · rw [List.mem_map] at hc'
        obtain ⟨cj, _, rfl⟩ := hc'
        exact mem_subnodes_cronJobNode n hmc hkind
      rcases List.mem_append.mp hc' with hc'' | hc''
      rotate_left
      · rw [List.mem_map] at hc''
        obtain ⟨j, _, rfl⟩ := hc''
        exact mem_subnodes_jobNode n hmc hkind
      rcases List.mem_append.mp hc'' with hc''' | hc'''
      rotate_left
      · rw [List.mem_map] at hc'''
        obtain ⟨d, _, rfl⟩ := hc'''
        exact mem_subnodes_daemonSetNode n hmc hkind
      rcases List.mem_append.mp hc''' with hc'''' | hc''''
      · rw [List.mem_map] at hc''''
        obtain ⟨d, _, rfl⟩ := hc''''
        exact mem_subnodes_deploymentNode n hmc hkind
      · rw [List.mem_map] at hc''''
        obtain ⟨s, _, rfl⟩ := hc''''
        exact mem_subnodes_statefulSetNode n hmc hkind

/-- The pod of the C10 witness, with one container. -/
def c10Pod : Pod := ⟨"p1", [⟨"ReplicaSet", "rs1"⟩], ⟨[], [⟨"c1", [], []⟩]⟩⟩

/-- The ReplicaSet of the C10 witness. -/
def c10Rs : ReplicaSet := ⟨"rs1", [⟨"Deployment", "web"⟩]⟩

/-- The Deployment of the C10 witness. -/
def c10Dep : Deployment := ⟨"web", [], emptyPodSpec⟩

/-- The C10 witness snapshot. -/
def resC10 : Resources :=
  { emptyRes with
    pods := [c10Pod]
    deployments := [c10Dep]
    replicaSets := [c10Rs] }

/-- The tree built for the C10 witness snapshot. -/
def c10Root : Resource :=
  .mk "Namespace" "ns"
    [.mk "Deployment" "web"
      [.mk "ReplicaSet" "rs1" [.mk "Pod" "p1" [.mk "Container" "c1" []]]]]

/-- Witness for C10 at the concrete Pod node of the built tree. -/
theorem podNodesHaveContainers_witness :
    BuildTree extractInsertion "ns" resC10 = some c10Root ∧
    ∃ p ∈ resC10.pods,
      p.name = (Resource.mk "Pod" "p1" [.mk "Container" "c1" []]).name ∧
      (Resource.mk "Pod" "p1" [.mk "Container" "c1" []]).children = containerNodes p :=
  ⟨rfl,
   podNodesHaveContainers extractInsertion "ns" resC10 c10Root
     (Resource.mk "Pod" "p1" [.mk "Container" "c1" []]) rfl
     (by simp [c10Root, subnodes, subnodesForest]) rfl⟩
